import Mathlib

/-!
Verification of the `qr_console` repository (src/qr_console/qr_console.py):
a console application builder based on Python's argparse library.

The development shallowly embeds the program:

* the tokenizer `QRConsole.extract_args` (regex scan for quoted spans,
  `str.replace` with the sentinel `$^$$^$`, `str.split`, re-substitution
  loop with a possible IndexError, modelled as `Option`);
* the command builder `QRCommand.add_argument` / `set_func`;
* the registry `QRConsole.add_command` (duplicate / missing-handler checks);
* the dispatch path `QRConsole.__read_line` and the loop `QRConsole.run`,
  with the argparse collaborator modelled for the parser shape this program
  builds (a main parser holding one subparsers positional plus `-h` and
  `--help`,
  and one sub-parser per registered command).

Machine strings are embedded as `List Char` in the tokenizer (where character
level induction is needed) and as `String` in the parser layer.
-/

namespace QrConsole

/-! ## Tokenizer: `QRConsole.extract_args` (qr_console.py lines 153-166)

Python source:
```
def extract_args(self, s):
    p = r'\"([A-Za-z0-9а-яА-Я_ -]+)\"'
    b_args = ['"' + x + '"' for x in re.findall(p, s)]
    fill = f'$^$$^$'
    for i in range(len(b_args)):
        s = s.replace(b_args[i], fill)
    args = s.split()
    i = 0
    for j in range(len(args)):
        if args[j] == fill:
            args[j] = b_args[i][1:-1]
            i += 1
    return args
```
-/

/-- Character class of the regex `[A-Za-z0-9а-яА-Я_ -]`: ASCII letters, digits,
Cyrillic letters U+0430-U+044F and U+0410-U+042F, underscore, space, hyphen. -/
def allowedChar (c : Char) : Bool :=
  ('A' ≤ c && c ≤ 'Z') || ('a' ≤ c && c ≤ 'z') || ('0' ≤ c && c ≤ '9') ||
    (0x430 ≤ c.toNat && c.toNat ≤ 0x44F) || (0x410 ≤ c.toNat && c.toNat ≤ 0x42F) ||
    c = '_' || c = ' ' || c = '-'

/-- Whitespace recognized by Python's `str.split()`: the code points for
which CPython's `Py_UNICODE_ISSPACE` holds — tab through carriage return
(U+0009-U+000D), the file/group/record/unit separators (U+001C-U+001F),
space, next line (U+0085), no-break space (U+00A0), Ogham space mark
(U+1680), the U+2000-U+200A spaces, line and paragraph separators
(U+2028, U+2029), narrow no-break space (U+202F), medium mathematical space
(U+205F), and ideographic space (U+3000). -/
def isPySpace (c : Char) : Bool :=
  (0x09 ≤ c.toNat && c.toNat ≤ 0x0D) || c.toNat = 0x20 ||
    (0x1C ≤ c.toNat && c.toNat ≤ 0x1F) || c.toNat = 0x85 || c.toNat = 0xA0 ||
    c.toNat = 0x1680 || (0x2000 ≤ c.toNat && c.toNat ≤ 0x200A) ||
    c.toNat = 0x2028 || c.toNat = 0x2029 || c.toNat = 0x202F || c.toNat = 0x205F ||
    c.toNat = 0x3000

/-- The sentinel `fill = f'$^$$^$'` from `extract_args`.  The f-string has no
placeholder, so it is the fixed six-character string `$^$$^$`. -/
def fillStr : List Char := ['$', '^', '$', '$', '^', '$']

/-- Scanner state and loop of `re.findall(r'\"([A-Za-z0-9а-яА-Я_ -]+)\"', s)`.
The second argument is `none` outside a candidate match and `some acc` after an
opening quote, with `acc` the reversed run of allowed characters read so far.
Since `"` is not in the character class, greedy backtracking never changes the
match: a match is exactly a `"`, a nonempty maximal run of allowed characters,
and a `"`; after a failed attempt the regex engine resumes one position later,
which this scanner reproduces (an empty run followed by `"` restarts at that
quote; a disallowed character aborts the candidate). -/
def findallAux : List Char → Option (List Char) → List (List Char)
  | [], _ => []
  | c :: cs, none =>
    if c = '"' then findallAux cs (some []) else findallAux cs none
  | c :: cs, some acc =>
    if c = '"' then
      if acc = [] then findallAux cs (some [])
      else acc.reverse :: findallAux cs none
    else if allowedChar c then findallAux cs (some (c :: acc))
    else findallAux cs none

/-- Contents of the quoted spans found by the regex, in order. -/
def findall (s : List Char) : List (List Char) := findallAux s none

/-- Fueled worker for Python's `str.replace(old, new)` with a nonempty `old`:
replaces non-overlapping occurrences left to right.  One unit of fuel is spent
per step, and every step consumes at least one character, so fuel equal to the
length of the string suffices. -/
def replaceAllF (pat rep : List Char) : Nat → List Char → List Char
  | _, [] => []
  | 0, s => s
  | fuel + 1, c :: cs =>
    if pat.isPrefixOf (c :: cs) = true ∧ pat ≠ [] then
      rep ++ replaceAllF pat rep fuel ((c :: cs).drop pat.length)
    else
      c :: replaceAllF pat rep fuel cs

/-- Python `s.replace(pat, rep)` for the nonempty patterns used by
`extract_args` (every pattern there is a quoted span `"..."`). -/
def pyReplace (s pat rep : List Char) : List Char := replaceAllF pat rep s.length s

/-- Worker for Python's `str.split()`: `acc` is the reversed current word. -/
def splitWsAux : List Char → List Char → List (List Char)
  | acc, [] => if acc = [] then [] else [acc.reverse]
  | acc, c :: cs =>
    if isPySpace c then
      if acc = [] then splitWsAux [] cs else acc.reverse :: splitWsAux [] cs
    else splitWsAux (c :: acc) cs

/-- Python `s.split()`: split on runs of whitespace, dropping empty pieces. -/
def pySplit (s : List Char) : List (List Char) := splitWsAux [] s

/-- The re-substitution loop of `extract_args`: each token equal to the
sentinel is replaced by `b_args[i][1:-1]` for the next unconsumed `i`.  When
the tokens contain more sentinel occurrences than `len(b_args)`, the Python
code raises `IndexError` (`b_args[i]` out of range), modelled as `none`. -/
def subFill : List (List Char) → List (List Char) → Option (List (List Char))
  | _, [] => some []
  | [], t :: ts =>
    if t = fillStr then none
    else (subFill [] ts).map (fun r => t :: r)
  | b :: bs, t :: ts =>
    if t = fillStr then (subFill bs ts).map (fun r => ((b.drop 1).dropLast) :: r)
    else (subFill (b :: bs) ts).map (fun r => t :: r)

/-- Embedding of `QRConsole.extract_args` (`self` is unused by the Python
method).  Returns `none` exactly when the Python code raises `IndexError`. -/
def extract_args (s : List Char) : Option (List (List Char)) :=
  let b_args := (findall s).map (fun x => '"' :: (x ++ ['"']))
  let s2 := b_args.foldl (fun acc b => pyReplace acc b fillStr) s
  subFill b_args (pySplit s2)

/-! ## Well-formed input lines for the tokenizer

A line built from whitespace-free unquoted words and quoted spans, joined by
single spaces.  These segments formalize the spec's "unquoted
whitespace-separated words" and "quoted spans". -/

/-- One segment of an input line: an unquoted word or a double-quoted span
(the stored list is the content between the quotes). -/
inductive Seg where
  | word (w : List Char)
  | quoted (c : List Char)
deriving DecidableEq

/-- Concrete text of a segment as it appears in the line. -/
def segStr : Seg → List Char
  | .word w => w
  | .quoted c => '"' :: (c ++ ['"'])

/-- The token a segment should produce: the word itself, or the quoted
content with the quotes removed. -/
def segContent : Seg → List Char
  | .word w => w
  | .quoted c => c

/-- The token a segment produces after the replacement pass, in which every
quoted span has been rewritten to the sentinel. -/
def segToken : Seg → List Char
  | .word w => w
  | .quoted _ => fillStr

/-- Contents of the quoted segments, in order. -/
def quotedContents : List Seg → List (List Char)
  | [] => []
  | .word _ :: ss => quotedContents ss
  | .quoted c :: ss => c :: quotedContents ss

/-- The input line obtained by joining segments with single spaces. -/
def joinSegs : List Seg → List Char
  | [] => []
  | [s] => segStr s
  | s :: ss => segStr s ++ ' ' :: joinSegs ss

/-- Well-formedness of one segment: a word is nonempty, free of whitespace and
double quotes, and differs from the sentinel; a quoted span has nonempty
content drawn from the regex's character class and not starting with a
space. -/
def wfSeg : Seg → Bool
  | .word w => !w.isEmpty && w.all (fun c => !isPySpace c && c != '"') && w ≠ fillStr
  | .quoted c => !c.isEmpty && c.all allowedChar && c.head? ≠ some ' '

/-- Well-formedness of a whole segment list. -/
def wfSegs (l : List Seg) : Bool := l.all wfSeg

/-- Substitution performed by one `str.replace` call at the segment level:
quoted spans whose content equals the pattern content become sentinel
words. -/
def replaceQuoted (c : List Char) : Seg → Seg
  | .word w => .word w
  | .quoted d => if d = c then .word fillStr else .quoted d

/-- Substitution performed by the whole replacement loop at the segment
level: every quoted span becomes a sentinel word. -/
def fillQuoted : Seg → Seg
  | .word w => .word w
  | .quoted _ => .word fillStr

/-! ## Commands: `QRCommand` (qr_console.py lines 45-84) -/

/-- Value type accepted by the `type=` keyword in the repository's usage
(`type=int`, `type=str`; absent means the raw string is kept). -/
inductive TypeTag
  | int
  | str
deriving DecidableEq

/-- Python values appearing in a parsed namespace: converted ints, strings,
`store_true` booleans, and `None` defaults. -/
inductive PyVal
  | vInt (n : Int)
  | vStr (s : String)
  | vBool (b : Bool)
  | vNone
deriving DecidableEq

/-- The keyword arguments of `add_argument` that the repository uses
(`type=`, `action='store_true'`, `default=`, `help=`).  `dflt` embeds the
`default` keyword. -/
structure Kwargs where
  type : Option TypeTag
  action : Option String
  dflt : Option PyVal
  help : Option String
deriving DecidableEq

/-- One value of the `QRCommand.arguments` dict: `[[name] + args, kwargs]`. -/
structure ArgEntry where
  names : List String
  kwargs : Kwargs
deriving DecidableEq

/-- Embedding of `QRCommand`: `arguments` is the Python dict keyed by the
bare argument name, as an insertion-ordered association list. -/
structure QRCommand where
  name : String
  help : Option String
  arguments : List (String × ArgEntry)
  func : Option String
deriving DecidableEq

/-- Assignment `d[k] = v` on a Python dict: an existing key keeps its
position and gets the new value, a new key is appended. -/
def dictInsert {α : Type} (k : String) (v : α) : List (String × α) → List (String × α)
  | [] => [(k, v)]
  | (k', v') :: rest => if k' = k then (k, v) :: rest else (k', v') :: dictInsert k v rest

/-- Lookup `d[k]` on a Python dict. -/
def dictLookup {α : Type} (k : String) : List (String × α) → Option α
  | [] => none
  | (k', v) :: rest => if k' = k then some v else dictLookup k rest

/-- Test `name[0] == '-'` on a nonempty string (Python slicing semantics). -/
def dashHead (t : String) : Bool :=
  match t.data with
  | '-' :: _ => true
  | _ => false

/-- Test `name[:2] == '--'`. -/
def dashDashHead (t : String) : Bool :=
  match t.data with
  | '-' :: '-' :: _ => true
  | _ => false

/-- Python `name[n:]`. -/
def strTail (t : String) (n : Nat) : String := String.mk (t.data.drop n)

/-- The `bare_name` computed by `QRCommand.add_argument`: the name with its
leading dashes stripped. -/
def bareName (name : String) : String :=
  if ¬ dashHead name then name
  else if dashDashHead name then strTail name 2 else strTail name 1

/-- The option-string list stored by `add_argument`: `[name] + args` for a
positional name, and `[name, '-bare', '--bare'] + args` for a dashed name
(the code always derives both single-dash and double-dash forms and prepends
them to the caller-supplied extra names). -/
def storedNames (name : String) (args : List String) : List String :=
  if dashHead name then
    name :: ("-" ++ bareName name) :: ("--" ++ bareName name) :: args
  else
    name :: args

/-- Embedding of `QRCommand.add_argument` (lines 51-72).  Python evaluates
`name[0]`, so the empty name raises `IndexError`, modelled as `none`; all
other names produce the updated command, returned for chaining. -/
def add_argument (cmd : QRCommand) (name : String) (args : List String) (kwargs : Kwargs) :
    Option QRCommand :=
  if name = "" then none
  else some { cmd with
    arguments := dictInsert (bareName name) ⟨storedNames name args, kwargs⟩ cmd.arguments }

/-- Embedding of `QRCommand.set_func` (lines 74-84). -/
def set_func (cmd : QRCommand) (f : String) : QRCommand :=
  { cmd with func := some f }

/-! ## The argparse collaborator, modelled for this console's parser shape

`QRConsole.__init__` builds one `ThrowingArgumentParser` whose only
positional is a subparsers action and whose only option is `-h`/`--help`
(redefined by `QRHelpAction` to print help without exiting).  Every
registered command contributes one sub-parser.  The model below follows
argparse's documented behaviour for exactly these constructs; `--opt=val`
joined values, option abbreviation and the bare `--` separator are not
modelled (no theorem below quantifies over inputs using them). -/

/-- Help texts printed by the redefined help action: the whole-shell usage of
the main parser, or the usage of one command's sub-parser. -/
inductive PEvent
  | mainHelp
  | cmdHelp (name : String)
deriving DecidableEq

/-- Errors raised through `ThrowingArgumentParser.error` while parsing,
carrying the data of the corresponding argparse message. -/
inductive ParseErr
  | invalidChoice (tok : String)
  | unrecognized (toks : List String)
  | invalidValue (dest : String) (tok : String)
  | missingArgs (dests : List String)
  | expectedOne (opt : String)
deriving DecidableEq

deriving instance DecidableEq for Except

/-- One argument of a sub-parser, as argparse stores it: a positional with a
destination and type, or an optional with its option strings, destination,
`store_true` flag, type and default. -/
inductive PSpec
  | positional (dest : String) (ty : TypeTag)
  | optional (strings : List String) (dest : String) (storeTrue : Bool) (ty : TypeTag)
      (dflt : Option PyVal)
deriving DecidableEq

/-- Destination (namespace attribute) of a spec. -/
def PSpec.dest : PSpec → String
  | .positional d _ => d
  | .optional _ d _ _ _ => d

/-- Translation of one stored `arguments` entry into the parser argument
created by `parser.add_argument(*args, **kwargs)` (lines 122-123).  The entry
is optional iff its first name starts with a dash; the argparse destination
then equals the bare name (the first derived `--bare` long option). -/
def specOf (bare : String) (e : ArgEntry) : PSpec :=
  if dashHead (e.names.headD "") then
    .optional e.names bare (e.kwargs.action == some "store_true") (e.kwargs.type.getD .str)
      e.kwargs.dflt
  else
    .positional bare (e.kwargs.type.getD .str)

/-- One sub-parser of the subparsers action, created by
`subparsers.add_parser(name=cmd.name, ...)`. -/
structure SubParser where
  name : String
  specs : List PSpec
deriving DecidableEq

/-- Embedding of the `QRConsole` state: the subparsers name-to-parser map
(`_name_parser_map`, insertion ordered), the `commands` list, and the
`throw_errors` flag from `__init__`. -/
structure QRConsole where
  names : List (String × SubParser)
  commands : List QRCommand
  throw_errors : Bool
deriving DecidableEq

/-- Registration failures of `QRConsole.add_command`: the explicit
`Exception` for a missing handler (line 119), and the `argparse.ArgumentError`
(`conflicting subparser`) raised by `subparsers.add_parser` for a duplicate
name (CPython 3.11+). -/
inductive RegErr
  | noFunc (name : String)
  | conflict (name : String)
deriving DecidableEq

/-- Embedding of `QRConsole.add_command` (lines 117-130).  The returned
console is the state after the call, including the raising cases: both checks
fire before any mutation, so a failed call leaves the console unchanged. -/
def add_command (con : QRConsole) (cmd : QRCommand) : QRConsole × Option RegErr :=
  if cmd.func = none then (con, some (.noFunc cmd.name))
  else if (dictLookup cmd.name con.names).isSome then (con, some (.conflict cmd.name))
  else
    ({ con with
        names := con.names ++
          [(cmd.name, ⟨cmd.name, cmd.arguments.map (fun be => specOf be.1 be.2)⟩)],
        commands := con.commands ++ [cmd] },
      none)

/-- The two help-request option strings, recognized by the help action of
every parser. -/
def markerTok (t : String) : Bool := t == "-h" || t == "--help"

/-- Tokens shaped like negative numbers, which argparse treats as positionals
when no option string looks like a negative number (the case here). -/
def negNumber (t : String) : Bool :=
  match t.data with
  | '-' :: ds => !ds.isEmpty && ds.all Char.isDigit
  | _ => false

/-- Whether argparse classifies a token as an optional: it starts with the
prefix character, is not the bare `-`, contains no space, and does not look
like a negative number (argparse `_parse_optional`). -/
def optionLike (t : String) : Bool :=
  dashHead t && t != "-" && !(t.data.any (fun c => c = ' ')) && !negNumber t

/-- Numeric value of a digit run. -/
def digitsVal (ds : List Char) : Nat :=
  ds.foldl (fun a c => a * 10 + (c.toNat - '0'.toNat)) 0

/-- Model of Python `int(str)` on the tokens this console feeds it: an
optional sign followed by decimal digits (underscore separators and exotic
whitespace stripping are not modelled). -/
def pyInt (s : String) : Option Int :=
  match s.data with
  | '-' :: ds => if !ds.isEmpty && ds.all Char.isDigit then some (-(digitsVal ds : Int)) else none
  | '+' :: ds => if !ds.isEmpty && ds.all Char.isDigit then some (digitsVal ds : Int) else none
  | ds => if !ds.isEmpty && ds.all Char.isDigit then some (digitsVal ds : Int) else none

/-- Conversion of one token by an argument's `type=`; a failing `int()` call
becomes the argparse error `invalid int value`. -/
def convertVal (ty : TypeTag) (dest tok : String) : Except ParseErr PyVal :=
  match ty with
  | .str => .ok (.vStr tok)
  | .int =>
    match pyInt tok with
    | some n => .ok (.vInt n)
    | none => .error (.invalidValue dest tok)

/-- Initial namespace value of a spec: positionals and valueless optionals
start as `None`, `store_true` optionals as `False`, defaults apply. -/
def initVal : PSpec → PyVal
  | .positional _ _ => .vNone
  | .optional _ _ st _ dflt => dflt.getD (if st then .vBool false else .vNone)

/-- The namespace seeded with every spec's initial value, in declaration
order (argparse sets all defaults before consuming tokens). -/
def initAssigns (specs : List PSpec) : List (String × PyVal) :=
  specs.map (fun sp => (sp.dest, initVal sp))

/-- Update of one destination in the namespace, preserving order. -/
def setVal (d : String) (v : PyVal) : List (String × PyVal) → List (String × PyVal)
  | [] => []
  | (k, v0) :: rest => if k = d then (k, v) :: rest else (k, v0) :: setVal d v rest

/-- The positional specs, as destination/type pairs in declaration order. -/
def positPairs (specs : List PSpec) : List (String × TypeTag) :=
  specs.filterMap (fun sp =>
    match sp with
    | .positional d ty => some (d, ty)
    | .optional _ _ _ _ _ => none)

/-- First optional spec owning a given option string. -/
def findOpt (t : String) : List PSpec → Option PSpec
  | [] => none
  | sp :: rest =>
    match sp with
    | .optional strs d st ty dflt =>
      if t ∈ strs then some (.optional strs d st ty dflt) else findOpt t rest
    | .positional _ _ => findOpt t rest

/-- Classification of an option-like token against a sub-parser's specs: a
`store_true` flag, a value-taking option with its destination and type, or an
unknown option string. -/
inductive OptKind
  | flag (d : String)
  | val (d : String) (ty : TypeTag)
  | unknown
deriving DecidableEq

/-- Classify an option-like token by looking it up among the optionals. -/
def optKind (allSpecs : List PSpec) (t : String) : OptKind :=
  match findOpt t allSpecs with
  | some (.optional _ d st ty _) => if st then .flag d else .val d ty
  | some (.positional _ _) => .unknown
  | none => .unknown

/-- Consumption of the value token `v` of a pending value-taking option
`opt` with destination `d` and type `ty`: an option-like token in value
position is the argparse error `expected one argument`, otherwise the value
is converted and stored. -/
def valStep (opt d : String) (ty : TypeTag) (v : String) (asg : List (String × PyVal)) :
    Except ParseErr (List (String × PyVal)) :=
  if optionLike v then .error (.expectedOne opt)
  else
    match convertVal ty d v with
    | .ok pv => .ok (setVal d pv asg)
    | .error e => .error e

/-- Consumption of one non-help token with no pending option: a known flag
sets its destination, a known value-taking option becomes pending, an unknown
option-like token is `unrecognized`, and any other token feeds the next
positional.  Returns the next pending/positional/namespace state. -/
def plainStep (allSpecs : List PSpec) (rem : List (String × TypeTag))
    (asg : List (String × PyVal)) (t : String) :
    Except ParseErr
      (Option (String × String × TypeTag) × List (String × TypeTag) × List (String × PyVal)) :=
  if optionLike t then
    match optKind allSpecs t with
    | .flag d => .ok (none, rem, setVal d (.vBool true) asg)
    | .val d ty => .ok (some (t, d, ty), rem, asg)
    | .unknown => .error (.unrecognized [t])
  else
    match rem with
    | [] => .error (.unrecognized [t])
    | (d, ty) :: rem2 =>
      match convertVal ty d t with
      | .ok pv => .ok (none, rem2, setVal d pv asg)
      | .error e => .error e

/-- Token consumption loop of one sub-parser, one token per step: help
options print the command's help and continue (QRHelpAction), known optionals
consume their value (tracked by the pending first argument between steps),
positionals are consumed in declaration order with type conversion, unknown
tokens and missing required positionals are argparse errors. -/
def subGo (cname : String) (allSpecs : List PSpec) :
    Option (String × String × TypeTag) → List (String × TypeTag) →
      List (String × PyVal) → List String →
      List PEvent × Except ParseErr (List (String × PyVal))
  | some (opt, _, _), _, _, [] => ([], .error (.expectedOne opt))
  | none, rem, asg, [] =>
    if rem.isEmpty then ([], .ok asg)
    else ([], .error (.missingArgs (rem.map Prod.fst)))
  | some (opt, d, ty), rem, asg, v :: rest =>
    match valStep opt d ty v asg with
    | .ok asg2 => subGo cname allSpecs none rem asg2 rest
    | .error e => ([], .error e)
  | none, rem, asg, t :: rest =>
    if markerTok t then
      let r := subGo cname allSpecs none rem asg rest
      (.cmdHelp cname :: r.1, r.2)
    else
      match plainStep allSpecs rem asg t with
      | .ok (pending2, rem2, asg2) => subGo cname allSpecs pending2 rem2 asg2 rest
      | .error e => ([], .error e)

/-- Parse of all tokens handed to one sub-parser, yielding its help events
and either an argparse error or the final namespace assignments. -/
def subParse (sub : SubParser) (tokens : List String) :
    List PEvent × Except ParseErr (List (String × PyVal)) :=
  subGo sub.name sub.specs none (positPairs sub.specs) (initAssigns sub.specs) tokens

/-- Main-parser loop: help options print whole-shell help and continue,
unknown optionals are collected as extras (reported as `unrecognized
arguments` at the end), and the first positional token hands itself and the
whole remainder to the subparsers action, which rejects unregistered names
with `invalid choice`.  On success the result carries the entered command and
its namespace values in declaration order (the `func` default set by
`add_command`). -/
def mainGo (con : QRConsole) :
    List String → List String → List PEvent × Except ParseErr (Option (String × List PyVal))
  | extras, [] => ([], if extras.isEmpty then .ok none else .error (.unrecognized extras))
  | extras, t :: rest =>
    if markerTok t then
      let r := mainGo con extras rest
      (.mainHelp :: r.1, r.2)
    else if optionLike t then mainGo con (extras ++ [t]) rest
    else
      match dictLookup t con.names with
      | none => ([], .error (.invalidChoice t))
      | some sub =>
        let r := subParse sub rest
        (r.1,
          match r.2 with
          | .error e => .error e
          | .ok asg =>
            if extras.isEmpty then .ok (some (t, asg.map Prod.snd))
            else .error (.unrecognized extras))

/-- Embedding of `self.parser.parse_args(s)` for this console. -/
def mainParse (con : QRConsole) (tokens : List String) :
    List PEvent × Except ParseErr (Option (String × List PyVal)) :=
  mainGo con [] tokens

/-! ## The dispatch loop: `QRConsole.__read_line` and `QRConsole.run`
(qr_console.py lines 113-151) -/

/-- Exceptions that reach the `except Exception` handler of `__read_line`:
`EOFError` from `input()`, `IndexError` from `extract_args`, the
`ArgumentParserError` raised by `ThrowingArgumentParser.error`, and any
exception escaping a command handler. -/
inductive PyExc
  | eofError
  | indexError
  | parseError (e : ParseErr)
  | handlerError (msg : String)
deriving DecidableEq

/-- Observable result of one `__read_line` call: the help texts printed, the
handler invocation (command name and positional values) if any, the error
printed in red if any, and the `sys.exit` status if any. -/
structure LineResult where
  events : List PEvent
  invoked : Option (String × List PyVal)
  reported : Option PyExc
  exited : Option Nat
deriving DecidableEq

/-- Exit status produced by the error branch: `sys.exit(1)` iff
`throw_errors` is set. -/
def exitIf (b : Bool) : Option Nat := if b then some 1 else none

/-- The part of `QRConsole.__read_line` that runs once `extract_args` has
produced a token list: compute `is_help`, call `parse_args`, and invoke the
entered command's handler unless a help marker was present; `hb` gives each
handler's behaviour (`none` for a normal return, `some msg` for an exception
with message `msg`). -/
def dispatchToks (con : QRConsole) (hb : String → List PyVal → Option String)
    (toks : List (List Char)) : LineResult :=
  let s := toks.map (fun l => String.mk l)
  let is_help := s.any markerTok
  let pr := mainParse con s
  match pr.2 with
  | .error e =>
    if is_help then ⟨pr.1, none, none, none⟩
    else ⟨pr.1, none, some (.parseError e), exitIf con.throw_errors⟩
  | .ok none => ⟨pr.1, none, none, none⟩
  | .ok (some (cname, vals)) =>
    if is_help then ⟨pr.1, none, none, none⟩
    else
      match hb cname vals with
      | none => ⟨pr.1, some (cname, vals), none, none⟩
      | some msg => ⟨pr.1, some (cname, vals), some (.handlerError msg), exitIf con.throw_errors⟩

/-- Embedding of `QRConsole.__read_line` (lines 138-151).  The argument is
the `input()` result (`none` models end-of-file, where `input` raises
`EOFError`).  Exceptions raised before `is_help` is assigned leave it `None`,
so `if not is_help` takes the error branch for them. -/
def readLine (con : QRConsole) (hb : String → List PyVal → Option String) :
    Option String → LineResult
  | none => ⟨[], none, some .eofError, exitIf con.throw_errors⟩
  | some str =>
    match extract_args str.toList with
    | none => ⟨[], none, some .indexError, exitIf con.throw_errors⟩
    | some toks => dispatchToks con hb toks

/-- Embedding of `QRConsole.run` (lines 113-115) on a prefix of the input
stream: `while True: self.__read_line()` processes every line, stopping only
when a call exits the process. -/
def runTrace (con : QRConsole) (hb : String → List PyVal → Option String) :
    List (Option String) → List LineResult
  | [] => []
  | l :: ls =>
    let r := readLine con hb l
    r :: (if (r.exited).isSome then [] else runTrace con hb ls)

/-! ## Demonstration fixtures

The example console of the repository's `__main__` block and README, built
through the registration API, used to instantiate the theorems below on
concrete inputs. -/

/-- Handler behaviour in which no handler raises. -/
def hbNone : String → List PyVal → Option String := fun _ _ => none

/-- Test for word segments (used to count unquoted words). -/
def isWordSeg : Seg → Bool
  | .word _ => true
  | .quoted _ => false

/-- The `add` command of the usage example. -/
def demoAdd : QRCommand :=
  (do
    let c ← add_argument (QRCommand.mk "add" (some "sum 2 integers") [] (some "print(a + b)"))
      "a" [] ⟨some .int, none, none, some "1st arg"⟩
    add_argument c "b" [] ⟨some .int, none, none, some "2nd arg"⟩).getD
    (QRCommand.mk "add" none [] none)

/-- The `sub` command of the usage example. -/
def demoSub : QRCommand :=
  (do
    let c ← add_argument (QRCommand.mk "sub" (some "differ 2 integers") [] (some "print(a - b)"))
      "-a" [] ⟨some .int, none, some (.vInt 0), some "1st arg"⟩
    add_argument c "--value" ["-v"] ⟨some .int, none, none, some "2nd arg"⟩).getD
    (QRCommand.mk "sub" none [] none)

/-- The `one` command of the usage example. -/
def demoOne : QRCommand :=
  (do
    let c ← add_argument (QRCommand.mk "one" (some "change value by 1") [] (some "print(v +- 1)"))
      "v" [] ⟨some .int, none, none, none⟩
    add_argument c "-i" ["--flag"] ⟨none, some "store_true", none, some "set to inc"⟩).getD
    (QRCommand.mk "one" none [] none)

/-- The example console with its three commands registered. -/
def demoConsole : QRConsole :=
  (add_command ((add_command ((add_command ⟨[], [], false⟩ demoAdd).1) demoSub).1) demoOne).1

/-- The sub-parser that registration builds for `add`. -/
def demoAddParser : SubParser :=
  ⟨"add", demoAdd.arguments.map (fun be => specOf be.1 be.2)⟩

/-! ## Tokenizer lemmas -/

theorem allowedChar_ne_quote {c : Char} (h : allowedChar c = true) : c ≠ '"' := by
  intro hq
  subst hq
  exact absurd h (by decide)

theorem findallAux_skip (l t : List Char) (h : ∀ c ∈ l, c ≠ '"') :
    findallAux (l ++ t) none = findallAux t none := by
  induction l with
  | nil => rfl
  | cons c l ih =>
    have hc : c ≠ '"' := h c (List.mem_cons_self c l)
    simp only [List.cons_append, findallAux, if_neg hc]
    exact ih (fun x hx => h x (List.mem_cons_of_mem c hx))

theorem findallAux_run (c : List Char) (acc t : List Char)
    (h : ∀ ch ∈ c, allowedChar ch = true) :
    findallAux (c ++ '"' :: t) (some acc) =
      if acc.reverse ++ c = [] then findallAux t (some [])
      else (acc.reverse ++ c) :: findallAux t none := by
  induction c generalizing acc with
  | nil =>
    by_cases hacc : acc = []
    · subst hacc
      simp [findallAux]
    · simp [findallAux, hacc, List.reverse_eq_nil_iff]
  | cons ch c ih =>
    have h1 : allowedChar ch = true := h ch (List.mem_cons_self ch c)
    have h2 : ch ≠ '"' := allowedChar_ne_quote h1
    simp only [List.cons_append, findallAux, if_neg h2, h1, if_true, List.append_eq]
    rw [ih (ch :: acc) (fun x hx => h x (List.mem_cons_of_mem ch hx))]
    have hrw : (ch :: acc).reverse ++ c = acc.reverse ++ ch :: c := by
      simp
    rw [hrw]

theorem findall_quoted_step (c t : List Char) (hne : c ≠ [])
    (h : ∀ ch ∈ c, allowedChar ch = true) :
    findallAux ('"' :: (c ++ '"' :: t)) none = c :: findallAux t none := by
  simp only [findallAux, if_pos rfl]
  rw [findallAux_run c [] t h]
  simp [hne]

theorem wfSeg_word_parts {w : List Char} (h : wfSeg (.word w) = true) :
    w ≠ [] ∧ (∀ c ∈ w, isPySpace c = false ∧ c ≠ '"') ∧ w ≠ fillStr := by
  simp only [wfSeg, Bool.and_eq_true, List.all_eq_true, decide_eq_true_eq,
    Bool.not_eq_true'] at h
  obtain ⟨⟨h1, h2⟩, h3⟩ := h
  refine ⟨?_, fun c hc => ?_, h3⟩
  · intro hnil
    subst hnil
    simp at h1
  · have h4 := h2 c hc
    simp only [Bool.and_eq_true, Bool.not_eq_true', bne_iff_ne] at h4
    exact h4

theorem wfSeg_quoted_parts {c : List Char} (h : wfSeg (.quoted c) = true) :
    c ≠ [] ∧ (∀ ch ∈ c, allowedChar ch = true) ∧ c.head? ≠ some ' ' := by
  simp only [wfSeg, Bool.and_eq_true, List.all_eq_true, decide_eq_true_eq,
    Bool.not_eq_true'] at h
  obtain ⟨⟨h1, h2⟩, h3⟩ := h
  refine ⟨?_, h2, h3⟩
  intro hnil
  subst hnil
  simp at h1

theorem wfSegs_cons {s : Seg} {ss : List Seg} (h : wfSegs (s :: ss) = true) :
    wfSeg s = true ∧ wfSegs ss = true := by
  simpa [wfSegs] using h

theorem findall_joinSegs (segs : List Seg) (h : wfSegs segs = true) :
    findall (joinSegs segs) = quotedContents segs := by
  induction segs with
  | nil => rfl
  | cons s ss ih =>
    obtain ⟨hs, hss⟩ := wfSegs_cons h
    cases ss with
    | nil =>
      cases s with
      | word w =>
        obtain ⟨-, hch, -⟩ := wfSeg_word_parts hs
        show findallAux w none = quotedContents [Seg.word w]
        have : findallAux (w ++ []) none = findallAux [] none :=
          findallAux_skip w [] (fun x hx => (hch x hx).2)
        simpa using this
      | quoted c =>
        obtain ⟨hne, hall, -⟩ := wfSeg_quoted_parts hs
        show findallAux ('"' :: (c ++ ['"'])) none = quotedContents [Seg.quoted c]
        have : findallAux ('"' :: (c ++ '"' :: [])) none = c :: findallAux [] none :=
          findall_quoted_step c [] hne hall
        simpa using this
    | cons s' ss' =>
      have hih : findallAux (joinSegs (s' :: ss')) none = quotedContents (s' :: ss') := ih hss
      cases s with
      | word w =>
        obtain ⟨-, hch, -⟩ := wfSeg_word_parts hs
        show findallAux (w ++ ' ' :: joinSegs (s' :: ss')) none
            = quotedContents (Seg.word w :: s' :: ss')
        have hstep : findallAux ((w ++ [' ']) ++ joinSegs (s' :: ss')) none
            = findallAux (joinSegs (s' :: ss')) none := by
          refine findallAux_skip (w ++ [' ']) _ (fun x hx => ?_)
          rcases List.mem_append.mp hx with hx | hx
          · exact (hch x hx).2
          · simp only [List.mem_singleton] at hx
            subst hx
            decide
        have hshape : (w ++ [' ']) ++ joinSegs (s' :: ss') = w ++ ' ' :: joinSegs (s' :: ss') := by
          simp
        rw [← hshape, hstep, hih]
        rfl
      | quoted c =>
        obtain ⟨hne, hall, -⟩ := wfSeg_quoted_parts hs
        show findallAux (('"' :: (c ++ ['"'])) ++ ' ' :: joinSegs (s' :: ss')) none
            = quotedContents (Seg.quoted c :: s' :: ss')
        have hshape : ('"' :: (c ++ ['"'])) ++ ' ' :: joinSegs (s' :: ss')
            = '"' :: (c ++ '"' :: (' ' :: joinSegs (s' :: ss'))) := by
          simp
        rw [hshape, findall_quoted_step c _ hne hall]
        have hsp : findallAux (' ' :: joinSegs (s' :: ss')) none
            = findallAux (joinSegs (s' :: ss')) none := by
          have h0 := findallAux_skip [' '] (joinSegs (s' :: ss'))
            (by
              intro x hx
              simp only [List.mem_singleton] at hx
              subst hx
              decide)
          simpa using h0
        rw [hsp, hih]
        rfl

theorem replaceAllF_fuel_eq (pat rep : List Char) :
    ∀ f s, s.length ≤ f → replaceAllF pat rep f s = pyReplace s pat rep := by
  intro f
  induction f using Nat.strong_induction_on with
  | _ f IH =>
    intro s hs
    cases s with
    | nil =>
      cases f <;> rfl
    | cons c cs =>
      cases f with
      | zero => simp at hs
      | succ f =>
        show replaceAllF pat rep (f + 1) (c :: cs) = replaceAllF pat rep (cs.length + 1) (c :: cs)
        rw [replaceAllF, replaceAllF]
        by_cases hcond : pat.isPrefixOf (c :: cs) = true ∧ pat ≠ []
        · rw [if_pos hcond, if_pos hcond]
          have hlen : ((c :: cs).drop pat.length).length ≤ cs.length := by
            have hp1 : 1 ≤ pat.length := by
              cases pat with
              | nil => exact absurd rfl hcond.2
              | cons p ps => simp
            simp only [List.length_drop, List.length_cons]
            omega
          have hf : cs.length ≤ f := by
            simpa using hs
          rw [IH f (Nat.lt_succ_self f) _ (le_trans hlen hf),
            IH cs.length (Nat.lt_succ_of_le hf) _ hlen]
        · rw [if_neg hcond, if_neg hcond]
          have hf : cs.length ≤ f := by
            simpa using hs
          rw [IH f (Nat.lt_succ_self f) cs hf]
          rfl

theorem pyReplace_nil (pat rep : List Char) : pyReplace [] pat rep = [] := rfl

theorem pyReplace_cons_neg {pat : List Char} (c : Char) (cs rep : List Char)
    (h : ¬ (pat.isPrefixOf (c :: cs) = true ∧ pat ≠ [])) :
    pyReplace (c :: cs) pat rep = c :: pyReplace cs pat rep := by
  show replaceAllF pat rep (cs.length + 1) (c :: cs) = _
  rw [replaceAllF, if_neg h]
  rfl

theorem pyReplace_cons_pos {pat : List Char} (c : Char) (cs rep : List Char)
    (hpre : pat.isPrefixOf (c :: cs) = true) (hne : pat ≠ []) :
    pyReplace (c :: cs) pat rep = rep ++ pyReplace ((c :: cs).drop pat.length) pat rep := by
  show replaceAllF pat rep (cs.length + 1) (c :: cs) = _
  rw [replaceAllF, if_pos ⟨hpre, hne⟩]
  congr 1
  apply replaceAllF_fuel_eq
  have hp1 : 1 ≤ pat.length := by
    cases pat with
    | nil => exact absurd rfl hne
    | cons p ps => simp
  simp only [List.length_drop, List.length_cons]
  omega

theorem isPrefixOf_self_append (l t : List Char) : l.isPrefixOf (l ++ t) = true := by
  induction l with
  | nil => simp [List.isPrefixOf]
  | cons a as ih => simp [List.isPrefixOf, ih]

theorem pyReplace_skip {pat : List Char} (l t rep : List Char) (p' : List Char)
    (hpat : pat = '"' :: p') (h : ∀ ch ∈ l, ch ≠ '"') :
    pyReplace (l ++ t) pat rep = l ++ pyReplace t pat rep := by
  induction l with
  | nil => rfl
  | cons c l ih =>
    have hc : c ≠ '"' := h c (List.mem_cons_self c l)
    have hnp : ¬ (pat.isPrefixOf (c :: (l ++ t)) = true ∧ pat ≠ []) := by
      rintro ⟨hpre, -⟩
      rw [hpat] at hpre
      simp only [List.isPrefixOf, Bool.and_eq_true, beq_iff_eq] at hpre
      exact hc hpre.1.symm
    rw [List.cons_append, pyReplace_cons_neg c (l ++ t) rep hnp,
      ih (fun x hx => h x (List.mem_cons_of_mem c hx))]
    simp

theorem pyReplace_quoted_match (c t rep : List Char) :
    pyReplace ('"' :: (c ++ '"' :: t)) ('"' :: (c ++ ['"'])) rep
      = rep ++ pyReplace t ('"' :: (c ++ ['"'])) rep := by
  have hshape : '"' :: (c ++ '"' :: t) = '"' :: ((c ++ ['"']) ++ t) := by
    simp
  have hpre : ('"' :: (c ++ ['"'])).isPrefixOf ('"' :: ((c ++ ['"']) ++ t)) = true := by
    have h0 := isPrefixOf_self_append ('"' :: (c ++ ['"'])) t
    simp only [List.cons_append] at h0
    exact h0
  rw [hshape, pyReplace_cons_pos '"' ((c ++ ['"']) ++ t) rep hpre (by simp)]
  congr 1
  have hx : '"' :: ((c ++ ['"']) ++ t) = ('"' :: (c ++ ['"'])) ++ t := by
    simp
  rw [hx, List.drop_left]

theorem not_isPrefixOf_quoted : ∀ (c d t : List Char), (∀ ch ∈ c, ch ≠ '"') →
    (∀ ch ∈ d, ch ≠ '"') → d ≠ c →
    (c ++ ['"']).isPrefixOf (d ++ '"' :: t) = false := by
  intro c
  induction c with
  | nil =>
    intro d t hc hd hne
    cases d with
    | nil => exact absurd rfl hne
    | cons d0 d' =>
      have hd0 : d0 ≠ '"' := hd d0 (List.mem_cons_self d0 d')
      have hb : ('"' == d0) = false := beq_eq_false_iff_ne.mpr (fun h => hd0 h.symm)
      simp [List.isPrefixOf, hb]
  | cons c0 c' ih =>
    intro d t hc hd hne
    cases d with
    | nil =>
      have hc0 : c0 ≠ '"' := hc c0 (List.mem_cons_self c0 c')
      have hb : (c0 == '"') = false := beq_eq_false_iff_ne.mpr hc0
      simp [List.isPrefixOf, hb]
    | cons d0 d' =>
      by_cases h0 : c0 = d0
      · subst h0
        simp only [List.cons_append, List.isPrefixOf, beq_self_eq_true, Bool.true_and]
        refine ih d' t (fun x hx => hc x (List.mem_cons_of_mem c0 hx))
          (fun x hx => hd x (List.mem_cons_of_mem c0 hx)) ?_
        intro heq
        exact hne (by rw [heq])
      · have hb : (c0 == d0) = false := beq_eq_false_iff_ne.mpr h0
        simp [List.isPrefixOf, hb]

theorem pyReplace_quoted_nomatch (c d t rep : List Char)
    (hc : ∀ ch ∈ c, ch ≠ '"') (hd : ∀ ch ∈ d, ch ≠ '"') (hne : d ≠ c)
    (hsep : t = [] ∨ ∃ t', t = ' ' :: t')
    (hhead : ∀ c0 c', c = c0 :: c' → c0 ≠ ' ') :
    pyReplace ('"' :: (d ++ '"' :: t)) ('"' :: (c ++ ['"'])) rep
      = '"' :: (d ++ '"' :: pyReplace t ('"' :: (c ++ ['"'])) rep) := by
  have hnp1 : ¬ (('"' :: (c ++ ['"'])).isPrefixOf ('"' :: (d ++ '"' :: t)) = true ∧
      ('"' :: (c ++ ['"'])) ≠ []) := by
    rintro ⟨hpre, -⟩
    simp only [List.isPrefixOf, beq_self_eq_true, Bool.true_and] at hpre
    rw [not_isPrefixOf_quoted c d t hc hd hne] at hpre
    exact Bool.false_ne_true hpre
  rw [pyReplace_cons_neg _ _ _ hnp1]
  rw [pyReplace_skip d ('"' :: t) rep (c ++ ['"']) rfl hd]
  have hnp2 : ¬ (('"' :: (c ++ ['"'])).isPrefixOf ('"' :: t) = true ∧
      ('"' :: (c ++ ['"'])) ≠ []) := by
    rintro ⟨hpre, -⟩
    simp only [List.isPrefixOf, beq_self_eq_true, Bool.true_and] at hpre
    rcases hsep with rfl | ⟨t', rfl⟩
    · cases hcc : c ++ ['"'] with
      | nil => simp at hcc
      | cons x xs => rw [hcc] at hpre; simp [List.isPrefixOf] at hpre
    · cases c with
      | nil =>
        simp only [List.nil_append, List.isPrefixOf, Bool.and_eq_true, beq_iff_eq] at hpre
        exact absurd hpre.1 (by decide)
      | cons c0 c' =>
        have hc0 : c0 ≠ ' ' := hhead c0 c' rfl
        simp only [List.cons_append, List.isPrefixOf, Bool.and_eq_true, beq_iff_eq] at hpre
        exact hc0 hpre.1
  rw [pyReplace_cons_neg _ _ _ hnp2]

theorem pyReplace_joinSegs (c : List Char) :
    ∀ (segs : List Seg), (∀ ch ∈ c, ch ≠ '"') →
    (∀ c0 c', c = c0 :: c' → c0 ≠ ' ') →
    (∀ s ∈ segs, ∀ ch ∈ segContent s, ch ≠ '"') →
    pyReplace (joinSegs segs) ('"' :: (c ++ ['"'])) fillStr
      = joinSegs (segs.map (replaceQuoted c)) := by
  intro segs
  induction segs with
  | nil => intro _ _ _; rfl
  | cons s ss ih =>
    intro hcq hch hseg
    have hsegtail : ∀ s' ∈ ss, ∀ ch ∈ segContent s', ch ≠ '"' :=
      fun s' hs' => hseg s' (List.mem_cons_of_mem s hs')
    have hsghead := hseg s (List.mem_cons_self s ss)
    cases ss with
    | nil =>
      cases s with
      | word w =>
        show pyReplace w ('"' :: (c ++ ['"'])) fillStr = joinSegs [Seg.word w]
        have h0 := pyReplace_skip w [] fillStr (c ++ ['"']) rfl hsghead
        simpa [joinSegs, segStr, pyReplace_nil] using h0
      | quoted d =>
        by_cases hdc : d = c
        · subst hdc
          show pyReplace ('"' :: (d ++ ['"'])) ('"' :: (d ++ ['"'])) fillStr
              = joinSegs [replaceQuoted d (Seg.quoted d)]
          have h0 := pyReplace_quoted_match d [] fillStr
          simpa [replaceQuoted, joinSegs, segStr, pyReplace_nil] using h0
        · show pyReplace ('"' :: (d ++ ['"'])) ('"' :: (c ++ ['"'])) fillStr
              = joinSegs [replaceQuoted c (Seg.quoted d)]
          have h0 := pyReplace_quoted_nomatch c d [] fillStr hcq hsghead hdc (Or.inl rfl) hch
          simpa [replaceQuoted, hdc, joinSegs, segStr, pyReplace_nil] using h0
    | cons s' ss' =>
      have hih := ih hcq hch hsegtail
      cases s with
      | word w =>
        show pyReplace (w ++ ' ' :: joinSegs (s' :: ss')) ('"' :: (c ++ ['"'])) fillStr
            = joinSegs (Seg.word w :: (s' :: ss').map (replaceQuoted c))
        have hwsp : ∀ x ∈ w ++ [' '], x ≠ '"' := by
          intro x hx
          rcases List.mem_append.mp hx with hx | hx
          · exact hsghead x hx
          · simp only [List.mem_singleton] at hx
            subst hx
            decide
        have h0 := pyReplace_skip (w ++ [' ']) (joinSegs (s' :: ss')) fillStr (c ++ ['"']) rfl hwsp
        have hshape : (w ++ [' ']) ++ joinSegs (s' :: ss') = w ++ ' ' :: joinSegs (s' :: ss') := by
          simp
        rw [hshape] at h0
        rw [h0, hih]
        cases hmap : (s' :: ss').map (replaceQuoted c) with
        | nil => simp at hmap
        | cons r rs => simp [joinSegs, segStr]
      | quoted d =>
        have hspace : pyReplace (' ' :: joinSegs (s' :: ss')) ('"' :: (c ++ ['"'])) fillStr
            = ' ' :: pyReplace (joinSegs (s' :: ss')) ('"' :: (c ++ ['"'])) fillStr := by
          have h1 := pyReplace_skip [' '] (joinSegs (s' :: ss')) fillStr (c ++ ['"']) rfl
            (by
              intro x hx
              simp only [List.mem_singleton] at hx
              subst hx
              decide)
          simpa using h1
        by_cases hdc : d = c
        · subst hdc
          show pyReplace (('"' :: (d ++ ['"'])) ++ ' ' :: joinSegs (s' :: ss'))
                ('"' :: (d ++ ['"'])) fillStr
              = joinSegs (replaceQuoted d (Seg.quoted d) :: (s' :: ss').map (replaceQuoted d))
          have hshape : ('"' :: (d ++ ['"'])) ++ ' ' :: joinSegs (s' :: ss')
              = '"' :: (d ++ '"' :: (' ' :: joinSegs (s' :: ss'))) := by
            simp
          rw [hshape, pyReplace_quoted_match d (' ' :: joinSegs (s' :: ss')) fillStr, hspace, hih]
          cases hmap : (s' :: ss').map (replaceQuoted d) with
          | nil => simp at hmap
          | cons r rs => simp [replaceQuoted, joinSegs, segStr]
        · show pyReplace (('"' :: (d ++ ['"'])) ++ ' ' :: joinSegs (s' :: ss'))
                ('"' :: (c ++ ['"'])) fillStr
              = joinSegs (replaceQuoted c (Seg.quoted d) :: (s' :: ss').map (replaceQuoted c))
          have hshape : ('"' :: (d ++ ['"'])) ++ ' ' :: joinSegs (s' :: ss')
              = '"' :: (d ++ '"' :: (' ' :: joinSegs (s' :: ss'))) := by
            simp
          rw [hshape, pyReplace_quoted_nomatch c d (' ' :: joinSegs (s' :: ss')) fillStr hcq
            hsghead hdc (Or.inr ⟨joinSegs (s' :: ss'), rfl⟩) hch, hspace, hih]
          cases hmap : (s' :: ss').map (replaceQuoted c) with
          | nil => simp at hmap
          | cons r rs => simp [replaceQuoted, hdc, joinSegs, segStr]

theorem fillQuoted_replaceQuoted (p : List Char) (s : Seg) :
    fillQuoted (replaceQuoted p s) = fillQuoted s := by
  cases s with
  | word w => rfl
  | quoted d =>
    by_cases h : d = p <;> simp [replaceQuoted, fillQuoted, h]

theorem map_fillQuoted_self (segs : List Seg) (h : ∀ d, Seg.quoted d ∈ segs → False) :
    segs.map fillQuoted = segs := by
  induction segs with
  | nil => rfl
  | cons s ss ih =>
    cases s with
    | word w =>
      simp only [List.map_cons, fillQuoted, List.cons.injEq, true_and]
      exact ih (fun d hd => h d (List.mem_cons_of_mem _ hd))
    | quoted d => exact (h d (List.mem_cons_self _ _)).elim

theorem foldl_pyReplace_segs : ∀ (pats : List (List Char)) (segs : List Seg),
    (∀ p ∈ pats, (∀ ch ∈ p, ch ≠ '"') ∧ (∀ c0 c', p = c0 :: c' → c0 ≠ ' ')) →
    (∀ s ∈ segs, ∀ ch ∈ segContent s, ch ≠ '"') →
    (∀ d, Seg.quoted d ∈ segs → d ∈ pats) →
    pats.foldl (fun acc p => pyReplace acc ('"' :: (p ++ ['"'])) fillStr) (joinSegs segs)
      = joinSegs (segs.map fillQuoted) := by
  intro pats
  induction pats with
  | nil =>
    intro segs hp hseg hcov
    rw [List.foldl_nil,
      map_fillQuoted_self segs (fun d hd => (List.not_mem_nil d) (hcov d hd))]
  | cons p ps ih =>
    intro segs hp hseg hcov
    have hphead := hp p (List.mem_cons_self p ps)
    rw [List.foldl_cons, pyReplace_joinSegs p segs hphead.1 hphead.2 hseg]
    have hseg' : ∀ s' ∈ segs.map (replaceQuoted p), ∀ ch ∈ segContent s', ch ≠ '"' := by
      intro s' hs'
      rcases List.mem_map.mp hs' with ⟨s, hsmem, rfl⟩
      cases s with
      | word w => exact hseg _ hsmem
      | quoted d =>
        by_cases hdp : d = p
        · simp only [replaceQuoted, if_pos hdp]
          intro ch hch
          simp only [segContent] at hch
          fin_cases hch <;> decide
        · simp only [replaceQuoted, if_neg hdp]
          exact hseg _ hsmem
    have hcov' : ∀ d, Seg.quoted d ∈ segs.map (replaceQuoted p) → d ∈ ps := by
      intro d hd
      rcases List.mem_map.mp hd with ⟨s, hsmem, heq⟩
      cases s with
      | word w => simp [replaceQuoted] at heq
      | quoted d0 =>
        by_cases hdp : d0 = p
        · simp [replaceQuoted, hdp] at heq
        · simp only [replaceQuoted, if_neg hdp, Seg.quoted.injEq] at heq
          subst heq
          have := hcov d0 hsmem
          rcases List.mem_cons.mp this with h | h
          · exact absurd h hdp
          · exact h
    rw [ih (segs.map (replaceQuoted p)) (fun q hq => hp q (List.mem_cons_of_mem p hq))
      hseg' hcov', List.map_map]
    have hfun : fillQuoted ∘ replaceQuoted p = fillQuoted :=
      funext (fun s => fillQuoted_replaceQuoted p s)
    rw [hfun]

theorem splitWsAux_push : ∀ (w : List Char) (acc t : List Char),
    (∀ c ∈ w, isPySpace c = false) →
    splitWsAux acc (w ++ t) = splitWsAux (w.reverse ++ acc) t := by
  intro w
  induction w with
  | nil => intro acc t _; simp
  | cons c w ih =>
    intro acc t h
    have hc : isPySpace c = false := h c (List.mem_cons_self c w)
    simp only [List.cons_append, splitWsAux, hc, Bool.false_eq_true, if_false, List.append_eq]
    rw [ih (c :: acc) t (fun x hx => h x (List.mem_cons_of_mem c hx))]
    simp

theorem splitWsAux_space (acc t : List Char) (h : acc ≠ []) :
    splitWsAux acc (' ' :: t) = acc.reverse :: splitWsAux [] t := by
  have hsp : isPySpace ' ' = true := by decide
  simp [splitWsAux, hsp, h]

theorem splitWsAux_last (acc : List Char) (h : acc ≠ []) :
    splitWsAux acc [] = [acc.reverse] := by
  simp [splitWsAux, h]

theorem pySplit_words : ∀ (segs : List Seg),
    (∀ s ∈ segs, ∃ w, s = Seg.word w ∧ w ≠ [] ∧ ∀ c ∈ w, isPySpace c = false) →
    pySplit (joinSegs segs) = segs.map segContent := by
  intro segs
  induction segs with
  | nil => intro _; rfl
  | cons s ss ih =>
    intro h
    obtain ⟨w, rfl, hne, hval⟩ := h s (List.mem_cons_self s ss)
    have hrne : w.reverse ≠ [] := by
      simpa using hne
    cases ss with
    | nil =>
      show splitWsAux [] (segStr (Seg.word w)) = [segContent (Seg.word w)]
      have h0 := splitWsAux_push w [] [] hval
      simp only [List.append_nil] at h0
      rw [show segStr (Seg.word w) = w from rfl, h0, splitWsAux_last _ hrne]
      simp [segContent]
    | cons s' ss' =>
      show splitWsAux [] (w ++ ' ' :: joinSegs (s' :: ss'))
          = segContent (Seg.word w) :: (s' :: ss').map segContent
      have h0 := splitWsAux_push w [] (' ' :: joinSegs (s' :: ss')) hval
      simp only [List.append_nil] at h0
      rw [h0, splitWsAux_space _ _ hrne, List.reverse_reverse]
      have hih := ih (fun x hx => h x (List.mem_cons_of_mem _ hx))
      rw [show splitWsAux [] (joinSegs (s' :: ss')) = pySplit (joinSegs (s' :: ss')) from rfl,
        hih]
      rfl

theorem subFill_segs : ∀ (segs : List Seg), (∀ w, Seg.word w ∈ segs → w ≠ fillStr) →
    subFill ((quotedContents segs).map (fun x => '"' :: (x ++ ['"']))) (segs.map segToken)
      = some (segs.map segContent) := by
  intro segs
  induction segs with
  | nil => intro _; rfl
  | cons s ss ih =>
    intro hw
    have hihs := ih (fun x hx => hw x (List.mem_cons_of_mem s hx))
    cases s with
    | word w =>
      have hwf : w ≠ fillStr := hw w (List.mem_cons_self _ _)
      show subFill ((quotedContents ss).map (fun x => '"' :: (x ++ ['"']))) (w :: ss.map segToken)
          = some (w :: ss.map segContent)
      cases hqc : (quotedContents ss).map (fun x => '"' :: (x ++ ['"'])) with
      | nil =>
        rw [hqc] at hihs
        rw [subFill, if_neg hwf, hihs]
        rfl
      | cons b bs =>
        rw [hqc] at hihs
        rw [subFill, if_neg hwf, hihs]
        rfl
    | quoted cq =>
      show subFill (('"' :: (cq ++ ['"'])) :: (quotedContents ss).map (fun x => '"' :: (x ++ ['"'])))
            (fillStr :: ss.map segToken)
          = some (cq :: ss.map segContent)
      rw [subFill, if_pos rfl, hihs]
      simp [List.dropLast_concat]

theorem mem_of_quotedContents : ∀ {segs : List Seg} {d : List Char},
    d ∈ quotedContents segs → Seg.quoted d ∈ segs := by
  intro segs
  induction segs with
  | nil => intro d hd; simp [quotedContents] at hd
  | cons s ss ih =>
    intro d hd
    cases s with
    | word w => exact List.mem_cons_of_mem _ (ih hd)
    | quoted c =>
      rcases List.mem_cons.mp hd with rfl | hd
      · exact List.mem_cons_self _ _
      · exact List.mem_cons_of_mem _ (ih hd)

theorem quotedContents_of_mem : ∀ {segs : List Seg} {d : List Char},
    Seg.quoted d ∈ segs → d ∈ quotedContents segs := by
  intro segs
  induction segs with
  | nil => intro d hd; simp at hd
  | cons s ss ih =>
    intro d hd
    rcases List.mem_cons.mp hd with heq | hd2
    · rw [← heq]
      exact List.mem_cons_self _ _
    · cases s with
      | word w => exact ih hd2
      | quoted c => exact List.mem_cons_of_mem _ (ih hd2)

theorem wfSegs_mem {segs : List Seg} (h : wfSegs segs = true) {s : Seg} (hs : s ∈ segs) :
    wfSeg s = true := by
  simp only [wfSegs, List.all_eq_true] at h
  exact h s hs

theorem segContent_fillQuoted (s : Seg) : segContent (fillQuoted s) = segToken s := by
  cases s <;> rfl

theorem extract_args_segments (segs : List Seg) (h : wfSegs segs = true) :
    extract_args (joinSegs segs) = some (segs.map segContent) := by
  have hfind : findall (joinSegs segs) = quotedContents segs := findall_joinSegs segs h
  have hp : ∀ p ∈ quotedContents segs,
      (∀ ch ∈ p, ch ≠ '"') ∧ (∀ c0 c', p = c0 :: c' → c0 ≠ ' ') := by
    intro p hpmem
    have hq := wfSegs_mem h (mem_of_quotedContents hpmem)
    obtain ⟨-, hall, hhead⟩ := wfSeg_quoted_parts hq
    refine ⟨fun ch hch => allowedChar_ne_quote (hall ch hch), ?_⟩
    rintro c0 c' rfl hsp
    subst hsp
    exact hhead rfl
  have hseg : ∀ s ∈ segs, ∀ ch ∈ segContent s, ch ≠ '"' := by
    intro s hs ch hch
    have hwfs := wfSegs_mem h hs
    cases s with
    | word w => exact ((wfSeg_word_parts hwfs).2.1 ch hch).2
    | quoted c => exact allowedChar_ne_quote ((wfSeg_quoted_parts hwfs).2.1 ch hch)
  have hfold := foldl_pyReplace_segs (quotedContents segs) segs hp hseg
    (fun d hd => quotedContents_of_mem hd)
  have hall : ∀ s' ∈ segs.map fillQuoted,
      ∃ w, s' = Seg.word w ∧ w ≠ [] ∧ ∀ c ∈ w, isPySpace c = false := by
    intro s' hs'
    rcases List.mem_map.mp hs' with ⟨s, hsmem, rfl⟩
    have hwfs := wfSegs_mem h hsmem
    cases s with
    | word w =>
      obtain ⟨hne, hpart, -⟩ := wfSeg_word_parts hwfs
      exact ⟨w, rfl, hne, fun c hc => (hpart c hc).1⟩
    | quoted c =>
      refine ⟨fillStr, rfl, by decide, ?_⟩
      intro c hc
      fin_cases hc <;> decide
  have hsplit := pySplit_words (segs.map fillQuoted) hall
  have hmapmap : (segs.map fillQuoted).map segContent = segs.map segToken := by
    rw [List.map_map]
    exact List.map_congr_left (fun s _ => segContent_fillQuoted s)
  have hsub := subFill_segs segs (fun w hw => (wfSeg_word_parts (wfSegs_mem h hw)).2.2)
  show subFill ((findall (joinSegs segs)).map (fun x => '"' :: (x ++ ['"'])))
      (pySplit (((findall (joinSegs segs)).map (fun x => '"' :: (x ++ ['"']))).foldl
        (fun acc b => pyReplace acc b fillStr) (joinSegs segs)))
    = some (segs.map segContent)
  rw [hfind, List.foldl_map, hfold, hsplit, hmapmap, hsub]

/-! ## Dispatch-loop lemmas -/

theorem readLine_some_eq (con : QRConsole) (hb : String → List PyVal → Option String)
    (str : String) (toks : List (List Char)) (hx : extract_args str.toList = some toks) :
    readLine con hb (some str) = dispatchToks con hb toks := by
  simp only [readLine, hx]

theorem dispatchToks_exited_cases (con : QRConsole) (hb : String → List PyVal → Option String)
    (toks : List (List Char)) :
    (dispatchToks con hb toks).exited = none ∨
      (dispatchToks con hb toks).exited = exitIf con.throw_errors := by
  simp only [dispatchToks]
  split
  · split
    · left; rfl
    · right; rfl
  · left; rfl
  · split
    · left; rfl
    · split
      · left; rfl
      · right; rfl

theorem dispatchToks_never_exits (con : QRConsole) (hb : String → List PyVal → Option String)
    (toks : List (List Char)) (hth : con.throw_errors = false) :
    (dispatchToks con hb toks).exited = none := by
  rcases dispatchToks_exited_cases con hb toks with h | h
  · exact h
  · rw [h, exitIf, hth]
    rfl

theorem readLine_never_exits (con : QRConsole) (hb : String → List PyVal → Option String)
    (line : Option String) (hth : con.throw_errors = false) :
    (readLine con hb line).exited = none := by
  rcases line with _ | str
  · show exitIf con.throw_errors = none
    rw [exitIf, hth]
    rfl
  · rcases hx : extract_args str.toList with _ | toks
    · simp only [readLine, hx]
      show exitIf con.throw_errors = none
      rw [exitIf, hth]
      rfl
    · rw [readLine_some_eq con hb str toks hx]
      exact dispatchToks_never_exits con hb toks hth

theorem runTrace_cons_of_no_exit (con : QRConsole) (hb : String → List PyVal → Option String)
    (l : Option String) (ls : List (Option String)) (h : (readLine con hb l).exited = none) :
    runTrace con hb (l :: ls) = readLine con hb l :: runTrace con hb ls := by
  simp [runTrace, h]

theorem runTrace_replicate_length (con : QRConsole) (hb : String → List PyVal → Option String)
    (x : Option String) (h : (readLine con hb x).exited = none) :
    ∀ n, (runTrace con hb (List.replicate n x)).length = n := by
  intro n
  induction n with
  | zero => rfl
  | succ n ih =>
    rw [List.replicate_succ, runTrace_cons_of_no_exit con hb x _ h]
    simp [ih]

theorem dispatchToks_help_no_invoke (con : QRConsole)
    (hb : String → List PyVal → Option String) (toks : List (List Char))
    (hm : (List.map (fun l => String.mk l) toks).any markerTok = true) :
    (dispatchToks con hb toks).invoked = none := by
  simp only [dispatchToks]
  split
  · split
    · rfl
    · next hneg => exact absurd hm hneg
  · rfl
  · split
    · rfl
    · next hneg => exact absurd hm hneg

theorem readLine_help_no_invoke (con : QRConsole) (hb : String → List PyVal → Option String)
    (str : String) (toks : List (List Char)) (hx : extract_args str.toList = some toks)
    (hm : (List.map (fun l => String.mk l) toks).any markerTok = true) :
    (readLine con hb (some str)).invoked = none := by
  rw [readLine_some_eq con hb str toks hx]
  exact dispatchToks_help_no_invoke con hb toks hm

theorem mainGo_marker_head (con : QRConsole) (extras : List String) (t : String)
    (ts : List String) (h : markerTok t = true) :
    PEvent.mainHelp ∈ (mainGo con extras (t :: ts)).1 := by
  simp [mainGo, h]

theorem subGo_marker_head (cname : String) (allSpecs : List PSpec)
    (rem : List (String × TypeTag)) (asg : List (String × PyVal)) (t : String)
    (ts : List String) (h : markerTok t = true) :
    PEvent.cmdHelp cname ∈ (subGo cname allSpecs none rem asg (t :: ts)).1 := by
  rw [subGo.eq_def]
  simp [h]

theorem mainGo_cmd_marker (con : QRConsole) (extras : List String) (name : String)
    (sub : SubParser) (t : String) (ts : List String)
    (hl : dictLookup name con.names = some sub) (hm : markerTok name = false)
    (ho : optionLike name = false) (ht : markerTok t = true) :
    PEvent.cmdHelp sub.name ∈ (mainGo con extras (name :: t :: ts)).1 := by
  simp only [mainGo, hm, ho, hl, Bool.false_eq_true, if_false]
  exact subGo_marker_head sub.name sub.specs _ _ t ts ht

theorem mainParse_unknown (con : QRConsole) (t : String) (hm : markerTok t = false)
    (ho : optionLike t = false) (hl : dictLookup t con.names = none) :
    mainParse con [t] = ([], .error (.invalidChoice t)) := by
  simp [mainParse, mainGo, hm, ho, hl]

theorem readLine_frobnicate (con : QRConsole) (hb : String → List PyVal → Option String)
    (hl : dictLookup "frobnicate" con.names = none) :
    readLine con hb (some "frobnicate")
      = ⟨[], none, some (.parseError (.invalidChoice "frobnicate")), exitIf con.throw_errors⟩ := by
  have hx : extract_args (String.data "frobnicate") = some [String.data "frobnicate"] := by
    decide
  rw [readLine_some_eq con hb "frobnicate" [String.data "frobnicate"] hx]
  have hmap : List.map (fun l => String.mk l) [String.data "frobnicate"] = ["frobnicate"] := by
    decide
  have hpr : mainParse con ["frobnicate"] = ([], .error (.invalidChoice "frobnicate")) :=
    mainParse_unknown con "frobnicate" (by decide) (by decide) hl
  have hihp : (["frobnicate"].any markerTok) = false := by decide
  simp only [dispatchToks, hmap, hpr, hihp]
  simp

/-! ## Registration lemmas -/

theorem dictInsert_key_mem {α : Type} (k : String) (v : α) :
    ∀ m : List (String × α), k ∈ (dictInsert k v m).map Prod.fst := by
  intro m
  induction m with
  | nil => simp [dictInsert]
  | cons p rest ih =>
    by_cases hkp : p.1 = k
    · simp [dictInsert, hkp]
    · simp only [dictInsert]
      rw [if_neg hkp]
      simpa using Or.inr ih

theorem dictInsert_keys_of_mem {α : Type} (k : String) (v : α) :
    ∀ m : List (String × α), k ∈ m.map Prod.fst →
      (dictInsert k v m).map Prod.fst = m.map Prod.fst := by
  intro m
  induction m with
  | nil => intro h; simp at h
  | cons p rest ih =>
    intro h
    by_cases hkp : p.1 = k
    · simp only [dictInsert]
      rw [if_pos hkp]
      simp [hkp]
    · simp only [dictInsert]
      rw [if_neg hkp]
      have hmem : k ∈ rest.map Prod.fst := by
        simp only [List.map_cons, List.mem_cons] at h
        rcases h with h1 | h1
        · exact absurd h1.symm hkp
        · exact h1
      simp [ih hmem]

theorem dictLookup_dictInsert {α : Type} (k : String) (v : α) :
    ∀ m : List (String × α), dictLookup k (dictInsert k v m) = some v := by
  intro m
  induction m with
  | nil => simp [dictInsert, dictLookup]
  | cons p rest ih =>
    by_cases hkp : p.1 = k
    · simp [dictInsert, hkp, dictLookup]
    · simp only [dictInsert]
      rw [if_neg hkp]
      simp only [dictLookup]
      rw [if_neg hkp]
      exact ih

theorem add_argument_some {cmd : QRCommand} {name : String} {args : List String} {kw : Kwargs}
    {c : QRCommand} (h : add_argument cmd name args kw = some c) :
    name ≠ "" ∧
    c = { cmd with
      arguments := dictInsert (bareName name) ⟨storedNames name args, kw⟩ cmd.arguments } := by
  by_cases hn : name = ""
  · rw [add_argument, if_pos hn] at h
    exact absurd h (by simp)
  · rw [add_argument, if_neg hn] at h
    exact ⟨hn, (Option.some.injEq _ _ ▸ h).symm⟩

/-! ## Further dispatch lemmas -/

theorem dispatchToks_error_reported (con : QRConsole)
    (hb : String → List PyVal → Option String) (toks : List (List Char)) (e : ParseErr)
    (hm : (List.map (fun l => String.mk l) toks).any markerTok = false)
    (hpr : (mainParse con (List.map (fun l => String.mk l) toks)).2 = .error e) :
    (dispatchToks con hb toks).reported = some (.parseError e) := by
  simp only [dispatchToks]
  split
  · next e2 heq =>
    rw [hpr] at heq
    injection heq with h2
    subst h2
    rw [if_neg (by simp [hm])]
  · next heq =>
    rw [hpr] at heq
    simp at heq
  · next p heq =>
    rw [hpr] at heq
    simp at heq

theorem readLine_error_reported (con : QRConsole) (hb : String → List PyVal → Option String)
    (str : String) (toks : List (List Char)) (e : ParseErr)
    (hx : extract_args str.toList = some toks)
    (hm : (List.map (fun l => String.mk l) toks).any markerTok = false)
    (hpr : (mainParse con (List.map (fun l => String.mk l) toks)).2 = .error e) :
    (readLine con hb (some str)).reported = some (.parseError e) := by
  rw [readLine_some_eq con hb str toks hx]
  exact dispatchToks_error_reported con hb toks e hm hpr

theorem readLine_eof (con : QRConsole) (hb : String → List PyVal → Option String) :
    readLine con hb none = ⟨[], none, some .eofError, exitIf con.throw_errors⟩ := rfl

theorem readLine_empty_line (con : QRConsole) (hb : String → List PyVal → Option String) :
    readLine con hb (some "") = ⟨[], none, none, none⟩ := by
  have hx : extract_args ("" : String).toList = some [] := by decide
  rw [readLine_some_eq con hb "" [] hx]
  simp only [dispatchToks]
  have hpr : mainParse con [] = ([], .ok none) := by
    simp [mainParse, mainGo]
  simp [hpr]

theorem length_eq_words_add_quoted : ∀ segs : List Seg,
    segs.length = (segs.filter isWordSeg).length + (quotedContents segs).length := by
  intro segs
  induction segs with
  | nil => rfl
  | cons s ss ih =>
    cases s with
    | word w =>
      simp [isWordSeg, quotedContents, ih]
      omega
    | quoted c =>
      simp only [List.filter, isWordSeg, quotedContents, List.length_cons]
      omega

/-! ## Claim C1 -/

/-- C1, counterexample: the line `frobnicate -h` contains a help marker and no
registered command name precedes it, so the claim demands whole-shell help;
the code instead raises `invalid choice` while the subparsers action consumes
`frobnicate`, the exception is swallowed because `is_help` is set, and nothing
at all is printed (no help event, no report). -/
theorem help_request_swallowed_counterexample :
    (List.map (fun l => String.mk l)
        ((extract_args ("frobnicate -h".toList)).getD [])).any markerTok = true ∧
    readLine (⟨[], [], false⟩ : QRConsole) hbNone (some "frobnicate -h")
      = ⟨[], none, none, none⟩ := by
  decide

/-- C1, amended: for every input line whose token sequence contains `-h` or
`--help`, dispatch invokes no command handler; help is printed for the most
specific scope actually reached before any parse failure — whole-shell help
when the marker is the leading token, and the command's help when a
registered command name leads and the marker immediately follows — but an
earlier parse failure (for example an unregistered leading token) suppresses
the help output. -/
theorem help_marker_dispatch_behavior :
    (∀ (con : QRConsole) (hb : String → List PyVal → Option String) (str : String)
        (toks : List (List Char)),
      extract_args str.toList = some toks →
      (List.map (fun l => String.mk l) toks).any markerTok = true →
      (readLine con hb (some str)).invoked = none) ∧
    (∀ (con : QRConsole) (t : String) (ts : List String), markerTok t = true →
      PEvent.mainHelp ∈ (mainParse con (t :: ts)).1) ∧
    (∀ (con : QRConsole) (name : String) (sub : SubParser) (t : String) (ts : List String),
      dictLookup name con.names = some sub → markerTok name = false →
      optionLike name = false → markerTok t = true →
      PEvent.cmdHelp sub.name ∈ (mainParse con (name :: t :: ts)).1) := by
  refine ⟨readLine_help_no_invoke, ?_, ?_⟩
  · intro con t ts h
    exact mainGo_marker_head con [] t ts h
  · intro con name sub t ts hl hm ho ht
    exact mainGo_cmd_marker con [] name sub t ts hl hm ho ht

/-- C1, witness: on the example console, `add -h` invokes no handler, a
leading `-h` prints whole-shell help, and `add -h` prints the help of the
`add` sub-parser. -/
theorem help_marker_dispatch_behavior_witness :
    (readLine demoConsole hbNone (some "add -h")).invoked = none ∧
    PEvent.mainHelp ∈ (mainParse demoConsole ["-h"]).1 ∧
    PEvent.cmdHelp demoAddParser.name ∈ (mainParse demoConsole ["add", "-h"]).1 := by
  obtain ⟨h1, h2, h3⟩ := help_marker_dispatch_behavior
  exact ⟨h1 demoConsole hbNone "add -h" ["add".toList, "-h".toList] (by decide) (by decide),
    h2 demoConsole "-h" [] (by decide),
    h3 demoConsole "add" demoAddParser "-h" [] (by decide) (by decide) (by decide) (by decide)⟩

/-! ## Claim C2 -/

/-- C2, counterexample: `frobnicate --help` is a per-line failure (the
subparsers action rejects `frobnicate`), yet no error message is reported:
`is_help` is true, so the except-branch swallows the exception silently,
contradicting the claim that every per-line failure is converted to a
reported error message. -/
theorem failure_swallowed_counterexample :
    (mainParse (⟨[], [], false⟩ : QRConsole) ["frobnicate", "--help"]).2
        = Except.error (.invalidChoice "frobnicate") ∧
    (readLine (⟨[], [], false⟩ : QRConsole) hbNone (some "frobnicate --help")).reported
        = none := by
  decide

/-- C2, amended: with `throw_errors` false, dispatch never exits and never
raises past its boundary; every parse failure on a line WITHOUT a help marker
is reported (help-marked failures are silently discarded); in particular an
unregistered command `frobnicate` is reported with an error referencing that
token, and the loop always goes on to read the next line. -/
theorem dispatch_error_reporting :
    (∀ (con : QRConsole) (hb : String → List PyVal → Option String) (line : Option String),
      con.throw_errors = false → (readLine con hb line).exited = none) ∧
    (∀ (con : QRConsole) (hb : String → List PyVal → Option String) (str : String)
        (toks : List (List Char)) (e : ParseErr),
      extract_args str.toList = some toks →
      (List.map (fun l => String.mk l) toks).any markerTok = false →
      (mainParse con (List.map (fun l => String.mk l) toks)).2 = .error e →
      (readLine con hb (some str)).reported = some (.parseError e)) ∧
    (∀ (con : QRConsole) (hb : String → List PyVal → Option String),
      dictLookup "frobnicate" con.names = none →
      (readLine con hb (some "frobnicate")).reported
        = some (.parseError (.invalidChoice "frobnicate"))) ∧
    (∀ (con : QRConsole) (hb : String → List PyVal → Option String) (l : Option String)
        (ls : List (Option String)), con.throw_errors = false →
      runTrace con hb (l :: ls) = readLine con hb l :: runTrace con hb ls) := by
  refine ⟨readLine_never_exits, readLine_error_reported, ?_, ?_⟩
  · intro con hb hfr
    rw [readLine_frobnicate con hb hfr]
  · intro con hb l ls hth
    exact runTrace_cons_of_no_exit con hb l ls (readLine_never_exits con hb l hth)

/-- C2, witness: on an empty console in report mode, end-of-file does not
exit, the unknown commands `nonsense` and `frobnicate` are reported with
errors referencing their tokens, and the loop processes the following
line. -/
theorem dispatch_error_reporting_witness :
    (readLine (⟨[], [], false⟩ : QRConsole) hbNone none).exited = none ∧
    (readLine (⟨[], [], false⟩ : QRConsole) hbNone (some "nonsense")).reported
        = some (.parseError (.invalidChoice "nonsense")) ∧
    (readLine (⟨[], [], false⟩ : QRConsole) hbNone (some "frobnicate")).reported
        = some (.parseError (.invalidChoice "frobnicate")) ∧
    runTrace (⟨[], [], false⟩ : QRConsole) hbNone [some "frobnicate", some ""]
        = [readLine (⟨[], [], false⟩ : QRConsole) hbNone (some "frobnicate"),
            readLine (⟨[], [], false⟩ : QRConsole) hbNone (some "")] := by
  obtain ⟨h1, h2, h3, h4⟩ := dispatch_error_reporting
  refine ⟨h1 _ hbNone none rfl,
    h2 _ hbNone "nonsense" ["nonsense".toList] _ (by decide) (by decide) (by decide),
    h3 _ hbNone rfl, ?_⟩
  rw [h4 _ hbNone (some "frobnicate") [some ""] rfl, h4 _ hbNone (some "") [] rfl]
  rfl

/-! ## Claim C3 -/

/-- C3, counterexample: the line `" " "a" "b"` has balanced quotes and three
quoted spans of allowed characters (a space, `a`, `b`), so the claim demands
3 tokens; the code produces 2, because `str.replace` of the first quoted span
`" "` also rewrites the inter-span text `" "` between `"a"` and `"b"`,
corrupting the line to `$^$$^$ "a$^$$^$b"`. -/
theorem tokenize_count_counterexample :
    extract_args ("\" \" \"a\" \"b\"".toList)
        = some [" ".toList, "\"a$^$$^$b\"".toList] ∧
      (extract_args ("\" \" \"a\" \"b\"".toList)).map List.length ≠ some 3 := by
  decide

/-- C3, amended: for every input line that is a single-space join of
well-formed segments — unquoted words (nonempty, free of whitespace and
quotes, not the sentinel `$^$$^$`) and quoted spans (nonempty allowed-character
content not starting with a space) — tokenize returns exactly one token per
segment, each quoted span yielding its content with the quotes removed and
internal spaces preserved, so the token count is the number of unquoted words
plus the number of quoted spans. -/
theorem tokenize_wellformed_line (segs : List Seg) (h : wfSegs segs = true) :
    extract_args (joinSegs segs) = some (segs.map segContent) ∧
    (segs.map segContent).length
      = (segs.filter isWordSeg).length + (quotedContents segs).length := by
  refine ⟨extract_args_segments segs h, ?_⟩
  rw [List.length_map]
  exact length_eq_words_add_quoted segs

/-- C3, witness: tokenizing `say "hello world" now` yields the three tokens
`say`, `hello world`, `now`. -/
theorem tokenize_wellformed_line_witness :
    extract_args (joinSegs [Seg.word "say".toList, Seg.quoted "hello world".toList,
        Seg.word "now".toList])
      = some ["say".toList, "hello world".toList, "now".toList] := by
  have h := (tokenize_wellformed_line [Seg.word "say".toList, Seg.quoted "hello world".toList,
      Seg.word "now".toList] (by decide)).1
  exact h

/-! ## Claim C4 -/

/-- C4: the claim that tokenize is total and that the sentinel cannot collide
with a whitespace-split token fails on the code: the sentinel is the fixed
string `$^$$^$` (the f-string has no placeholder), splitting the input
`$^$$^$` produces exactly that token, and on that input the re-substitution
loop evaluates `b_args[0]` on an empty list, raising `IndexError` (modelled
as `none`) instead of returning a token sequence. -/
theorem tokenize_sentinel_crash :
    extract_args ("$^$$^$".toList) = none ∧ pySplit ("$^$$^$".toList) = [fillStr] := by
  decide

/-! ## Claim C5 -/

/-- C5: for every registry state, adding a command whose name is already
registered fails with the registration error `conflicting subparser`
(argparse raises before inserting, CPython 3.11 and later), the console state
is unchanged, the existing name still maps to its original sub-parser, and
the commands list keeps every previously registered command with its original
handler and arguments. -/
theorem add_command_duplicate_rejected (con : QRConsole) (cmd : QRCommand) (p : SubParser)
    (f : String) (hf : cmd.func = some f) (hdup : dictLookup cmd.name con.names = some p) :
    add_command con cmd = (con, some (.conflict cmd.name)) ∧
    dictLookup cmd.name (add_command con cmd).1.names = some p ∧
    (add_command con cmd).1.commands = con.commands := by
  have heq : add_command con cmd = (con, some (.conflict cmd.name)) := by
    rw [add_command, if_neg (by simp [hf]), if_pos (by simp [hdup])]
  refine ⟨heq, ?_, ?_⟩
  · rw [heq]
    exact hdup
  · rw [heq]

/-- C5, witness: registering `add` a second time on the example console is
rejected with a conflict error and leaves the console unchanged. -/
theorem add_command_duplicate_rejected_witness :
    add_command demoConsole demoAdd = (demoConsole, some (.conflict demoAdd.name)) := by
  exact (add_command_duplicate_rejected demoConsole demoAdd demoAddParser "print(a + b)"
    (by decide) (by decide)).1

/-! ## Claim C6 -/

/-- C6: adding a command whose handler is unset raises the registration error
at setup time before any mutation, so the console — its registry and every
already-registered command — is unchanged (atomicity of the failed
registration). -/
theorem add_command_missing_handler_rejected (con : QRConsole) (cmd : QRCommand)
    (hf : cmd.func = none) :
    add_command con cmd = (con, some (.noFunc cmd.name)) := by
  rw [add_command, if_pos hf]

/-- C6, witness: registering a handler-less `mul` command on the example
console fails and leaves the console unchanged. -/
theorem add_command_missing_handler_rejected_witness :
    add_command demoConsole (QRCommand.mk "mul" (some "multiply") [] none)
      = (demoConsole, some (.noFunc "mul")) :=
  add_command_missing_handler_rejected demoConsole (QRCommand.mk "mul" (some "multiply") [] none)
    rfl

/-! ## Claim C7 -/

/-- C7: the claim that the loop terminates cleanly at end-of-input fails on
the code: `input()` raises `EOFError`, which the catch-all except reports as
an error (with `throw_errors` false there is no exit), and `run`'s
`while True` loop calls `input()` again, so the loop keeps re-reporting
`EOFError` forever — after any number `n` of end-of-file reads it is still
running. -/
theorem eof_error_loops_forever (con : QRConsole) (hb : String → List PyVal → Option String)
    (hth : con.throw_errors = false) :
    readLine con hb none = ⟨[], none, some .eofError, none⟩ ∧
    ∀ n, (runTrace con hb (List.replicate n none)).length = n := by
  have hexit : exitIf con.throw_errors = none := by
    rw [hth]
    rfl
  have h1 : readLine con hb none = ⟨[], none, some .eofError, none⟩ := by
    rw [readLine_eof con hb, hexit]
  refine ⟨h1, runTrace_replicate_length con hb none ?_⟩
  rw [h1]

/-- C7, witness: on an empty console in report mode, five consecutive
end-of-file reads are all processed and each reports `EOFError`. -/
theorem eof_error_loops_forever_witness :
    readLine (⟨[], [], false⟩ : QRConsole) hbNone none = ⟨[], none, some .eofError, none⟩ ∧
    (runTrace (⟨[], [], false⟩ : QRConsole) hbNone (List.replicate 5 none)).length = 5 := by
  obtain ⟨h1, h2⟩ := eof_error_loops_forever ⟨[], [], false⟩ hbNone rfl
  exact ⟨h1, h2 5⟩

/-! ## Claim C8 -/

/-- C8: with `throw_errors` true, a dispatch error (here: the unknown command
`frobnicate`) terminates the process with exit status 1; with `throw_errors`
false the same input reports the error and leaves the loop running; and
error-free lines (here: empty lines) never make the loop exit. -/
theorem throw_mode_exit_behavior (con : QRConsole) (hb : String → List PyVal → Option String)
    (hfr : dictLookup "frobnicate" con.names = none) :
    (con.throw_errors = true →
      readLine con hb (some "frobnicate")
        = ⟨[], none, some (.parseError (.invalidChoice "frobnicate")), some 1⟩) ∧
    (con.throw_errors = false →
      (readLine con hb (some "frobnicate")).exited = none ∧
      ∀ ls, runTrace con hb (some "frobnicate" :: ls)
        = readLine con hb (some "frobnicate") :: runTrace con hb ls) ∧
    (∀ n, (runTrace con hb (List.replicate n (some ""))).length = n) := by
  refine ⟨?_, ?_, ?_⟩
  · intro hth
    have hexit : exitIf con.throw_errors = some 1 := by
      rw [hth]
      rfl
    rw [readLine_frobnicate con hb hfr, hexit]
  · intro hth
    have hne := readLine_never_exits con hb (some "frobnicate") hth
    exact ⟨hne, fun ls => runTrace_cons_of_no_exit con hb _ ls hne⟩
  · intro n
    refine runTrace_replicate_length con hb (some "") ?_ n
    rw [readLine_empty_line con hb]

/-- C8, witness: in throw mode an empty console exits with status 1 on
`frobnicate`; in report mode it keeps running; four empty lines are all
processed in throw mode. -/
theorem throw_mode_exit_behavior_witness :
    readLine (⟨[], [], true⟩ : QRConsole) hbNone (some "frobnicate")
        = ⟨[], none, some (.parseError (.invalidChoice "frobnicate")), some 1⟩ ∧
    (readLine (⟨[], [], false⟩ : QRConsole) hbNone (some "frobnicate")).exited = none ∧
    (runTrace (⟨[], [], true⟩ : QRConsole) hbNone (List.replicate 4 (some ""))).length = 4 := by
  refine ⟨(throw_mode_exit_behavior ⟨[], [], true⟩ hbNone rfl).1 rfl,
    ((throw_mode_exit_behavior ⟨[], [], false⟩ hbNone rfl).2.1 rfl).1,
    (throw_mode_exit_behavior ⟨[], [], true⟩ hbNone rfl).2.2 4⟩

/-! ## Claim C9 -/

/-- C9: when an optional argument is declared by a dashed name (single or
double dash), `add_argument` stores, besides the declared name, both the
auto-derived single-dash and double-dash forms of the bare name, so the
argument is recognizable under both `-name` and `--name` option strings. -/
theorem add_argument_derives_both_forms (cmd : QRCommand) (name : String) (args : List String)
    (kw : Kwargs) (h : dashHead name = true) :
    add_argument cmd name args kw
      = some { cmd with
          arguments := dictInsert (bareName name)
            (ArgEntry.mk (name :: ("-" ++ bareName name) :: ("--" ++ bareName name) :: args) kw)
            cmd.arguments } ∧
    ("-" ++ bareName name) ∈ storedNames name args ∧
    ("--" ++ bareName name) ∈ storedNames name args := by
  have hne : name ≠ "" := by
    intro h0
    subst h0
    exact absurd h (by decide)
  refine ⟨?_, ?_, ?_⟩
  · rw [add_argument, if_neg hne]
    simp [storedNames, h]
  · rw [storedNames, if_pos h]
    simp
  · rw [storedNames, if_pos h]
    simp

/-- C9, witness: declaring `-a` stores both `-a` and `--a` as option
strings. -/
theorem add_argument_derives_both_forms_witness :
    ("-" ++ bareName "-a") ∈ storedNames "-a" [] ∧
    ("--" ++ bareName "-a") ∈ storedNames "-a" [] := by
  obtain ⟨-, h2, h3⟩ := add_argument_derives_both_forms (QRCommand.mk "sub" none [] none) "-a" []
    ⟨some .int, none, some (.vInt 0), none⟩ (by decide)
  exact ⟨h2, h3⟩

/-! ## Claim C10 -/

/-- C10: `arguments` is a dict keyed by the bare name in insertion order, so
a second `add_argument` whose name has the same bare form silently replaces
the earlier spec instead of failing — the key list is unchanged, the key now
maps to the second spec — and `add_argument` returns the same command
(chaining): name, handler and help are untouched. -/
theorem add_argument_same_bare_replaces (cmd : QRCommand) (n1 n2 : String)
    (a1 a2 : List String) (k1 k2 : Kwargs) (c1 c2 : QRCommand)
    (h1 : add_argument cmd n1 a1 k1 = some c1)
    (h2 : add_argument c1 n2 a2 k2 = some c2)
    (hb : bareName n1 = bareName n2) :
    c2.arguments.map Prod.fst = c1.arguments.map Prod.fst ∧
    dictLookup (bareName n2) c2.arguments = some ⟨storedNames n2 a2, k2⟩ ∧
    c2.name = cmd.name ∧ c2.func = cmd.func ∧ c2.help = cmd.help := by
  obtain ⟨-, hc1⟩ := add_argument_some h1
  obtain ⟨-, hc2⟩ := add_argument_some h2
  subst hc2
  subst hc1
  refine ⟨?_, ?_, rfl, rfl, rfl⟩
  · apply dictInsert_keys_of_mem
    rw [← hb]
    exact dictInsert_key_mem (bareName n1) _ cmd.arguments
  · exact dictLookup_dictInsert _ _ _

/-- C10, witness: declaring `x` after `-x` on a fresh command leaves a single
entry under the key `x`, holding the second spec. -/
theorem add_argument_same_bare_replaces_witness :
    dictLookup (bareName "x")
        ((⟨"one", none, [("x", ⟨["x"], ⟨some .str, none, none, none⟩⟩)], none⟩ :
          QRCommand).arguments)
      = some ⟨storedNames "x" [], ⟨some .str, none, none, none⟩⟩ := by
  exact (add_argument_same_bare_replaces ⟨"one", none, [], none⟩ "-x" "x" [] []
    ⟨some .int, none, none, none⟩ ⟨some .str, none, none, none⟩
    ⟨"one", none, [("x", ⟨["-x", "-x", "--x"], ⟨some .int, none, none, none⟩⟩)], none⟩
    ⟨"one", none, [("x", ⟨["x"], ⟨some .str, none, none, none⟩⟩)], none⟩
    (by decide) (by decide) (by decide)).2.1

end QrConsole
